import Mathlib

/-!
# Verification of the yama signal watcher (livetribe/yama)

Shallow embedding of the Go sources `yama.go` and `options.go`.

* `time.Duration` is modelled as `Int` (nanoseconds); `time.Second` is
  `1000000000` nanoseconds.
* The three option values (`watchingSignals`, `withTimeout`, `withClosers`)
  become an inductive type whose `Apply` mirrors the three Go `Apply` methods.
* The notification fan-in loop of `notifyClosers` is driven by an explicit
  event trace: each spawned closer goroutine contributes one
  `Event.completed key` event, and the timer contributes `Event.timerFired`;
  a trace is one interleaving the Go `select` may observe.  The `pending`
  map of `holder`s becomes a list of holders with distinct keys.
* `Watcher.notify` mirrors `notify`: it takes the closer list, clears it,
  and runs `notifyClosers` when the list is non-empty; its second component
  records which closers had a `Close` goroutine spawned by this call.

Signals and closers are opaque; both are type parameters.
-/

namespace Yama

/-- `time.Duration` in nanoseconds. -/
abbrev Duration := Int

/-- `time.Second`. -/
def timeSecond : Duration := 1000000000

/-- `DefaultTimeout = 10 * time.Second` (yama.go line 28). -/
def DefaultTimeout : Duration := 10 * timeSecond

/-- `Settings` from options.go: signals to watch, timeout, closer list. -/
structure Settings (σ κ : Type) where
  Signals : List σ
  TimeOut : Duration
  Closers : List κ
deriving DecidableEq, Repr

/-- The three concrete `Option` values of options.go.  (Named `YOption` to
avoid clashing with Lean's `Option`.) -/
inductive YOption (σ κ : Type) where
  | watchingSignals (signals : List σ)
  | withTimeout (timeout : Duration)
  | withClosers (closers : List κ)
deriving DecidableEq, Repr

/-- The `Apply` methods of the three option types: each sets exactly its
own field of `Settings`. -/
def YOption.Apply {σ κ : Type} : YOption σ κ → Settings σ κ → Settings σ κ
  | YOption.watchingSignals ss, s => { s with Signals := ss }
  | YOption.withTimeout t, s => { s with TimeOut := t }
  | YOption.withClosers cs, s => { s with Closers := cs }

/-- The settings value `NewWatcher` starts from:
`s := &Settings{TimeOut: DefaultTimeout}` (zero values elsewhere). -/
def initialSettings (σ κ : Type) : Settings σ κ :=
  { Signals := [], TimeOut := DefaultTimeout, Closers := [] }

/-- The option-application loop of `NewWatcher`:
`for _, option := range options { option.Apply(s) }`. -/
def applyOptions {σ κ : Type} (options : List (YOption σ κ)) : Settings σ κ :=
  options.foldl (fun s o => o.Apply s) (initialSettings σ κ)

/-- The `Watcher` state relevant to the claims: the capacity-1 `done`
channel (modelled by whether it holds a value), the effective timeout and
the registered closer list.  The `sync.WaitGroup`, the signal channel and
the mutex are concurrency plumbing; the mutex's effect is that `notify`'s
take-and-clear of `closers` is atomic, which the embedding reflects by
making `Watcher.notify` a single step. -/
structure Watcher (κ : Type) where
  doneSent : Bool
  timeout : Duration
  closers : List κ
deriving DecidableEq, Repr

/-- `NewWatcher` (yama.go): assemble settings from the options, copy the
timeout and closers into the watcher.  This variant never fails. -/
def NewWatcher {σ κ : Type} (options : List (YOption σ κ)) : Watcher κ :=
  let s := applyOptions options
  { doneSent := false, timeout := s.TimeOut, closers := s.Closers }

/-- `holder`: a closer wrapped with its index key (yama.go). -/
structure Holder (κ : Type) where
  key : Nat
  closer : κ
deriving DecidableEq, Repr

/-- One event the fan-in `select` of `notifyClosers` can observe: the
timer firing, or the completion message a closer goroutine sends on the
`completed` channel. -/
inductive Event where
  | timerFired
  | completed (key : Nat)
deriving DecidableEq, Repr

/-- The value `notifyClosers` returns: `nil`, or `&TimedOut{Uncompleted}`. -/
inductive NotifyOutcome (κ : Type) where
  | success
  | timedOut (Uncompleted : List κ)
deriving DecidableEq, Repr

/-- The body of the goroutine spawned per closer:
`_ = holder.closer.Close(); completed <- holder`.  Its argument
`closeResult` is the value `Close` returned (`none` = nil error); the event
it sends identifies the holder only. -/
def closerTask {κ : Type} (h : Holder κ) (closeResult : Option String) : Event :=
  Event.completed h.key

/-- The `pending` map after the spawn loop `for i, closer := range closers`:
holder `{key: i, closer: closers[i]}` for each index. -/
def initPending {κ : Type} (closers : List κ) : List (Holder κ) :=
  closers.enum.map (fun p => { key := p.1, closer := p.2 })

/-- The fan-in `for/select` loop of `notifyClosers`, driven by an event
trace.  `timerFired` returns `TimedOut` with the still-pending closers;
`completed k` deletes key `k` from the pending map, decrements `count`,
and returns `nil` when `count` hits zero or the map empties.  An empty
trace means no event was ever delivered (`none`: the loop is still
blocked); the real timer always fires eventually, so resolved runs are
traces containing `timerFired`. -/
def notifyLoop {κ : Type} (pending : List (Holder κ)) (count : Nat) :
    List Event → Option (NotifyOutcome κ)
  | [] => none
  | Event.timerFired :: _ =>
      some (NotifyOutcome.timedOut (pending.map Holder.closer))
  | Event.completed k :: rest =>
      let pending' := pending.filter (fun h => h.key != k)
      let count' := count - 1
      if count' = 0 ∨ pending'.length = 0 then some NotifyOutcome.success
      else notifyLoop pending' count' rest

/-- `notifyClosers` (yama.go): spawn one goroutine per closer, build the
pending map, then run the fan-in loop against the timer. -/
def notifyClosers {κ : Type} (closers : List κ) (trace : List Event) :
    Option (NotifyOutcome κ) :=
  notifyLoop (initPending closers) closers.length trace

/-- `notify` (yama.go): under the mutex, take the closer list and clear
the field; call `notifyClosers` only when the taken list is non-empty.
Returns the new watcher state, the list of closers whose `Close`
goroutine this call spawns, and the outcome. -/
def Watcher.notify {κ : Type} (w : Watcher κ) (trace : List Event) :
    Watcher κ × List κ × Option (NotifyOutcome κ) :=
  let closers := w.closers
  let w' : Watcher κ := { w with closers := [] }
  if closers.length > 0 then (w', closers, notifyClosers closers trace)
  else (w', [], some NotifyOutcome.success)

/-- `Wait` (yama.go): block on the wait group, then `notify`. -/
def Watcher.wait {κ : Type} (w : Watcher κ) (trace : List Event) :
    Watcher κ × List κ × Option (NotifyOutcome κ) :=
  w.notify trace

/-- `Close` (yama.go): non-blocking send on the capacity-1 `done` channel
(a no-op when it already holds a value), then `notify`. -/
def Watcher.close {κ : Type} (w : Watcher κ) (trace : List Event) :
    Watcher κ × List κ × Option (NotifyOutcome κ) :=
  Watcher.notify { w with doneSent := true } trace

/-- A public call on the watcher, with the event trace its notification
attempt (if any) observes. -/
inductive Call where
  | wait (trace : List Event)
  | close (trace : List Event)
deriving DecidableEq, Repr

/-- Run one public call. -/
def applyCall {κ : Type} (w : Watcher κ) :
    Call → Watcher κ × List κ × Option (NotifyOutcome κ)
  | Call.wait trace => w.wait trace
  | Call.close trace => w.close trace

/-- Run a sequence of public calls, accumulating the closers whose `Close`
goroutine was spawned across all calls. -/
def runCalls {κ : Type} (w : Watcher κ) : List Call → Watcher κ × List κ
  | [] => (w, [])
  | c :: rest =>
      let r := applyCall w c
      let rr := runCalls r.1 rest
      (rr.1, r.2.1 ++ rr.2)

/-- Modelled from the spec: the validating construction variant.  The
repository's implementation file under src contains only the
never-failing `NewWatcher`; the validating variant (construction fails
with a descriptive error naming the first null closer index, and no
watcher is produced) exists in this repository only through its test,
which expects the error text `closer #1 must not be null`.  Nullable
closers are `Option κ`; validation scans the effective closer list for
the first `none`. -/
def firstNullIdx {κ : Type} : List (Option κ) → Option Nat
  | [] => none
  | none :: _ => some 0
  | some _ :: rest => (firstNullIdx rest).map (· + 1)

/-- Modelled from the spec: the validating `NewWatcher` variant.  It
assembles settings exactly as the never-failing variant does, then fails
on the first null closer with the error text the test expects, and
otherwise produces the watcher. -/
def NewWatcherChecked {σ κ : Type} (options : List (YOption σ (Option κ))) :
    Except String (Watcher κ) :=
  let s := applyOptions options
  match firstNullIdx s.Closers with
  | some i => Except.error ("closer #" ++ toString i ++ " must not be null")
  | none => Except.ok { doneSent := false, timeout := s.TimeOut,
                        closers := s.Closers.filterMap id }

/-- Discriminator: is this option a `watchingSignals`? -/
def isWatchingSignals {σ κ : Type} : YOption σ κ → Bool
  | YOption.watchingSignals _ => true
  | _ => false

/-- Discriminator: is this option a `withTimeout`? -/
def isWithTimeout {σ κ : Type} : YOption σ κ → Bool
  | YOption.withTimeout _ => true
  | _ => false

/-- Discriminator: is this option a `withClosers`? -/
def isWithClosers {σ κ : Type} : YOption σ κ → Bool
  | YOption.withClosers _ => true
  | _ => false

/-! ## Settings assembly: field preservation under option application -/

lemma foldl_TimeOut_eq {σ κ : Type} (opts : List (YOption σ κ)) :
    ∀ s : Settings σ κ, (∀ o ∈ opts, isWithTimeout o = false) →
      (opts.foldl (fun s o => o.Apply s) s).TimeOut = s.TimeOut := by
  induction opts with
  | nil => intro s _; rfl
  | cons o rest ih =>
      intro s hp
      rw [List.foldl_cons, ih _ (fun x hx => hp x (List.mem_cons_of_mem _ hx))]
      cases o with
      | watchingSignals ss => rfl
      | withTimeout t =>
          have h := hp _ (List.mem_cons_self _ _)
          simp [isWithTimeout] at h
      | withClosers cs => rfl

lemma foldl_Signals_eq {σ κ : Type} (opts : List (YOption σ κ)) :
    ∀ s : Settings σ κ, (∀ o ∈ opts, isWatchingSignals o = false) →
      (opts.foldl (fun s o => o.Apply s) s).Signals = s.Signals := by
  induction opts with
  | nil => intro s _; rfl
  | cons o rest ih =>
      intro s hp
      rw [List.foldl_cons, ih _ (fun x hx => hp x (List.mem_cons_of_mem _ hx))]
      cases o with
      | watchingSignals ss =>
          have h := hp _ (List.mem_cons_self _ _)
          simp [isWatchingSignals] at h
      | withTimeout t => rfl
      | withClosers cs => rfl

lemma foldl_Closers_eq {σ κ : Type} (opts : List (YOption σ κ)) :
    ∀ s : Settings σ κ, (∀ o ∈ opts, isWithClosers o = false) →
      (opts.foldl (fun s o => o.Apply s) s).Closers = s.Closers := by
  induction opts with
  | nil => intro s _; rfl
  | cons o rest ih =>
      intro s hp
      rw [List.foldl_cons, ih _ (fun x hx => hp x (List.mem_cons_of_mem _ hx))]
      cases o with
      | watchingSignals ss => rfl
      | withTimeout t => rfl
      | withClosers cs =>
          have h := hp _ (List.mem_cons_self _ _)
          simp [isWithClosers] at h

/-- C8: if no `WithTimeout` option is supplied the watcher's effective
timeout is the default `10 * time.Second` (ten seconds in nanoseconds);
if a `WithTimeout d` is supplied (and not overridden by a later
`WithTimeout`), the effective timeout is `d`. -/
theorem effective_timeout_default_and_override (σ κ : Type) :
    DefaultTimeout = 10 * 1000000000 ∧
    (∀ opts : List (YOption σ κ),
      (∀ o ∈ opts, isWithTimeout o = false) →
      (applyOptions opts).TimeOut = DefaultTimeout ∧
      (NewWatcher opts : Watcher κ).timeout = DefaultTimeout) ∧
    (∀ (pre post : List (YOption σ κ)) (d : Duration),
      (∀ o ∈ post, isWithTimeout o = false) →
      (applyOptions (pre ++ YOption.withTimeout d :: post)).TimeOut = d ∧
      (NewWatcher (pre ++ YOption.withTimeout d :: post) : Watcher κ).timeout = d) := by
  refine ⟨by norm_num [DefaultTimeout, timeSecond], ?_, ?_⟩
  · intro opts hp
    have h : (applyOptions opts).TimeOut = DefaultTimeout :=
      foldl_TimeOut_eq opts (initialSettings σ κ) hp
    exact ⟨h, h⟩
  · intro pre post d hp
    have h : (applyOptions (pre ++ YOption.withTimeout d :: post)).TimeOut = d := by
      unfold applyOptions
      rw [List.foldl_append, List.foldl_cons]
      exact foldl_TimeOut_eq post _ hp
    exact ⟨h, h⟩

theorem effective_timeout_witness :
    (applyOptions (σ := Nat) (κ := Nat) [YOption.withTimeout 5]).TimeOut = 5 ∧
    (applyOptions (σ := Nat) (κ := Nat) []).TimeOut = DefaultTimeout :=
  ⟨((effective_timeout_default_and_override Nat Nat).2.2 [] [] 5
      (fun o ho => absurd ho (List.not_mem_nil o))).1,
   ((effective_timeout_default_and_override Nat Nat).2.1 []
      (fun o ho => absurd ho (List.not_mem_nil o))).1⟩

/-- C9: each option mutates exactly its own `Settings` field, leaving the
other two unchanged; and for every field whose option is absent from the
option list, the constructed settings keep the documented default (no
signals watched, default timeout, empty closer list). -/
theorem option_frame_and_defaults (σ κ : Type) :
    (∀ (s : Settings σ κ) (ss : List σ),
      (YOption.Apply (YOption.watchingSignals ss) s).Signals = ss ∧
      (YOption.Apply (YOption.watchingSignals ss) s).TimeOut = s.TimeOut ∧
      (YOption.Apply (YOption.watchingSignals ss) s).Closers = s.Closers) ∧
    (∀ (s : Settings σ κ) (d : Duration),
      (YOption.Apply (YOption.withTimeout d) s).Signals = s.Signals ∧
      (YOption.Apply (YOption.withTimeout d) s).TimeOut = d ∧
      (YOption.Apply (YOption.withTimeout d) s).Closers = s.Closers) ∧
    (∀ (s : Settings σ κ) (cs : List κ),
      (YOption.Apply (YOption.withClosers cs) s).Signals = s.Signals ∧
      (YOption.Apply (YOption.withClosers cs) s).TimeOut = s.TimeOut ∧
      (YOption.Apply (YOption.withClosers cs) s).Closers = cs) ∧
    (∀ opts : List (YOption σ κ),
      ((∀ o ∈ opts, isWatchingSignals o = false) →
          (applyOptions opts).Signals = []) ∧
      ((∀ o ∈ opts, isWithTimeout o = false) →
          (applyOptions opts).TimeOut = DefaultTimeout) ∧
      ((∀ o ∈ opts, isWithClosers o = false) →
          (applyOptions opts).Closers = [])) := by
  refine ⟨fun s ss => ⟨rfl, rfl, rfl⟩, fun s d => ⟨rfl, rfl, rfl⟩,
    fun s cs => ⟨rfl, rfl, rfl⟩, fun opts => ⟨?_, ?_, ?_⟩⟩
  · exact fun hp => foldl_Signals_eq opts (initialSettings σ κ) hp
  · exact fun hp => foldl_TimeOut_eq opts (initialSettings σ κ) hp
  · exact fun hp => foldl_Closers_eq opts (initialSettings σ κ) hp

theorem option_frame_witness :
    (YOption.Apply (YOption.watchingSignals [2])
        (initialSettings Nat Nat)).Closers = [] ∧
    (applyOptions (σ := Nat) (κ := Nat) [YOption.watchingSignals [2]]).TimeOut
      = DefaultTimeout :=
  ⟨((option_frame_and_defaults Nat Nat).1 (initialSettings Nat Nat) [2]).2.2,
   ((option_frame_and_defaults Nat Nat).2.2.2 [YOption.watchingSignals [2]]).2.1
      (by decide)⟩

/-- C10: options are applied left to right and each application overwrites
its whole field, so when the same kind of option occurs more than once the
constructed settings carry exactly the value of the last occurrence. -/
theorem last_option_occurrence_wins (σ κ : Type) :
    (∀ (pre post : List (YOption σ κ)) (cs : List κ),
      (∀ o ∈ post, isWithClosers o = false) →
      (applyOptions (pre ++ YOption.withClosers cs :: post)).Closers = cs) ∧
    (∀ (pre post : List (YOption σ κ)) (d : Duration),
      (∀ o ∈ post, isWithTimeout o = false) →
      (applyOptions (pre ++ YOption.withTimeout d :: post)).TimeOut = d) ∧
    (∀ (pre post : List (YOption σ κ)) (ss : List σ),
      (∀ o ∈ post, isWatchingSignals o = false) →
      (applyOptions (pre ++ YOption.watchingSignals ss :: post)).Signals = ss) := by
  refine ⟨?_, ?_, ?_⟩ <;> intro pre post v hp <;> unfold applyOptions <;>
    rw [List.foldl_append, List.foldl_cons]
  · exact foldl_Closers_eq post _ hp
  · exact foldl_TimeOut_eq post _ hp
  · exact foldl_Signals_eq post _ hp

theorem last_option_occurrence_witness :
    (applyOptions (σ := Nat) (κ := Nat)
        [YOption.withClosers [1], YOption.withClosers [2, 3]]).Closers = [2, 3] ∧
    (applyOptions (σ := Nat) (κ := Nat)
        [YOption.withTimeout 7, YOption.withTimeout 9]).TimeOut = 9 :=
  ⟨(last_option_occurrence_wins Nat Nat).1 [YOption.withClosers [1]] [] [2, 3]
      (fun o ho => absurd ho (List.not_mem_nil o)),
   (last_option_occurrence_wins Nat Nat).2.1 [YOption.withTimeout 7] [] 9
      (fun o ho => absurd ho (List.not_mem_nil o))⟩

/-! ## The pending map of notifyClosers -/

lemma initPending_map_key {κ : Type} (cs : List κ) :
    (initPending cs).map Holder.key = List.range cs.length := by
  unfold initPending
  rw [List.map_map]
  exact List.enum_map_fst cs

lemma initPending_map_closer {κ : Type} (cs : List κ) :
    (initPending cs).map Holder.closer = cs := by
  unfold initPending
  rw [List.map_map]
  exact List.enum_map_snd cs

lemma initPending_length {κ : Type} (cs : List κ) :
    (initPending cs).length = cs.length := by
  unfold initPending
  rw [List.length_map, List.enum_length]

lemma initPending_key_nodup {κ : Type} (cs : List κ) :
    ((initPending cs).map Holder.key).Nodup := by
  rw [initPending_map_key]
  exact List.nodup_range _

lemma filter_key_map {κ : Type} (p : List (Holder κ)) (q : Nat → Bool) :
    (p.filter (fun h => q h.key)).map Holder.key = (p.map Holder.key).filter q := by
  rw [List.filter_map]
  rfl

lemma length_filter_key_ne {κ : Type} {p : List (Holder κ)} {k : Nat}
    (hnd : (p.map Holder.key).Nodup) (hk : k ∈ p.map Holder.key) :
    (p.filter (fun h => h.key != k)).length = p.length - 1 := by
  have h1 : (p.filter (fun h => h.key != k)).length
      = ((p.map Holder.key).filter (fun x => x != k)).length := by
    rw [← filter_key_map p (fun x => x != k), List.length_map]
  rw [h1, ← List.Nodup.erase_eq_filter hnd k, List.length_erase_of_mem hk,
    List.length_map]

lemma initPending_filter_map_closer {κ : Type} (cs : List κ) (q : Nat → Bool) :
    ((initPending cs).filter (fun h => q h.key)).map Holder.closer
      = (cs.enum.filter (fun e => q e.1)).map Prod.snd := by
  unfold initPending
  rw [List.filter_map, List.map_map]
  rfl

/-! ## Unfolding equations for the fan-in loop -/

lemma notifyLoop_cons_timer {κ : Type} (p : List (Holder κ)) (c : Nat)
    (rest : List Event) :
    notifyLoop p c (Event.timerFired :: rest)
      = some (NotifyOutcome.timedOut (p.map Holder.closer)) := rfl

lemma notifyLoop_cons_completed {κ : Type} (p : List (Holder κ)) (c k : Nat)
    (rest : List Event) :
    notifyLoop p c (Event.completed k :: rest)
      = if c - 1 = 0 ∨ (p.filter (fun h => h.key != k)).length = 0
        then some NotifyOutcome.success
        else notifyLoop (p.filter (fun h => h.key != k)) (c - 1) rest := rfl

/-- Fan-in loop, timer branch: with distinct pending keys and a trace of
distinct completions covering strictly fewer keys than are pending, the
timer event ends the loop with `TimedOut` carrying exactly the holders
whose key did not complete. -/
lemma notifyLoop_timer {κ : Type} (ks : List Nat) :
    ∀ (p : List (Holder κ)) (rest : List Event),
      (p.map Holder.key).Nodup → ks.Nodup →
      (∀ k ∈ ks, k ∈ p.map Holder.key) →
      ks.length < p.length →
      notifyLoop p p.length (ks.map Event.completed ++ Event.timerFired :: rest)
        = some (NotifyOutcome.timedOut
            ((p.filter (fun h => !(ks.contains h.key))).map Holder.closer)) := by
  induction ks with
  | nil =>
      intro p rest _ _ _ _
      rw [List.map_nil, List.nil_append, notifyLoop_cons_timer]
      have hf : p.filter (fun h => !(List.contains [] h.key)) = p := by
        simp
      rw [hf]
  | cons k ks ih =>
      intro p rest hnd hknd hsub hlen
      have hkmem : k ∈ p.map Holder.key := hsub k (List.mem_cons_self _ _)
      have hplen : (p.filter (fun h => h.key != k)).length = p.length - 1 :=
        length_filter_key_ne hnd hkmem
      have hlen2 : ks.length + 1 < p.length := by
        simpa using hlen
      rw [List.map_cons, List.cons_append, notifyLoop_cons_completed]
      have hcond : ¬(p.length - 1 = 0
          ∨ (p.filter (fun h => h.key != k)).length = 0) := by
        rw [hplen]
        omega
      rw [if_neg hcond, ← hplen]
      have hnd' : ((p.filter (fun h => h.key != k)).map Holder.key).Nodup := by
        rw [filter_key_map p (fun x => x != k)]
        exact List.Nodup.filter _ hnd
      have hknd' : ks.Nodup := (List.nodup_cons.mp hknd).2
      have hkout : k ∉ ks := (List.nodup_cons.mp hknd).1
      have hsub' : ∀ j ∈ ks, j ∈ (p.filter (fun h => h.key != k)).map Holder.key := by
        intro j hj
        rw [filter_key_map p (fun x => x != k)]
        refine List.mem_filter.mpr ⟨hsub j (List.mem_cons_of_mem _ hj), ?_⟩
        have hjk : j ≠ k := fun he => hkout (he ▸ hj)
        simpa using hjk
      have hlen' : ks.length < (p.filter (fun h => h.key != k)).length := by
        rw [hplen]
        omega
      rw [ih _ rest hnd' hknd' hsub' hlen']
      rw [List.filter_filter]
      have hpt : List.filter (fun a : Holder κ => !ks.contains a.key && (a.key != k)) p
          = List.filter (fun a : Holder κ => !((k :: ks).contains a.key)) p := by
        refine List.filter_congr ?_
        intro a _
        rw [List.contains_cons]
        cases hek : a.key == k <;> cases hc : List.contains ks a.key <;>
          simp [hek, hc, bne]
      rw [hpt]

/-- Fan-in loop, drain branch: with distinct pending keys and a trace
whose completions are a permutation of every pending key, the loop ends
with the nil outcome before consuming any further event (in particular
with no timer event at all). -/
lemma notifyLoop_success {κ : Type} (ks : List Nat) :
    ∀ (p : List (Holder κ)) (rest : List Event),
      (p.map Holder.key).Nodup →
      List.Perm ks (p.map Holder.key) →
      p ≠ [] →
      notifyLoop p p.length (ks.map Event.completed ++ rest)
        = some NotifyOutcome.success := by
  induction ks with
  | nil =>
      intro p rest _ hperm hne
      have h0 : p.map Holder.key = [] := (hperm.symm).eq_nil
      exact absurd (List.map_eq_nil_iff.mp h0) hne
  | cons k ks ih =>
      intro p rest hnd hperm hne
      have hkmem : k ∈ p.map Holder.key :=
        hperm.mem_iff.mp (List.mem_cons_self _ _)
      have hplen : (p.filter (fun h => h.key != k)).length = p.length - 1 :=
        length_filter_key_ne hnd hkmem
      rw [List.map_cons, List.cons_append, notifyLoop_cons_completed]
      by_cases h0 : p.length - 1 = 0
          ∨ (p.filter (fun h => h.key != k)).length = 0
      · rw [if_pos h0]
      · rw [if_neg h0, ← hplen]
        have hnd' : ((p.filter (fun h => h.key != k)).map Holder.key).Nodup := by
          rw [filter_key_map p (fun x => x != k)]
          exact List.Nodup.filter _ hnd
        have hperm' : List.Perm ks ((p.filter (fun h => h.key != k)).map Holder.key) := by
          rw [filter_key_map p (fun x => x != k), ← List.Nodup.erase_eq_filter hnd k]
          exact (hperm.trans (List.perm_cons_erase hkmem)).cons_inv
        have hne' : p.filter (fun h => h.key != k) ≠ [] := by
          intro hnil
          exact (not_or.mp h0).2 (by rw [hnil]; rfl)
        exact ih _ rest hnd' hperm' hne'

/-- General form of the timer outcome: the `Uncompleted` list is the
original enumeration restricted to the indices that never completed. -/
lemma notifyClosers_timer_eq {κ : Type} (closers : List κ) (ks : List Nat)
    (rest : List Event) (hks : ks.Nodup) (hlt : ∀ k ∈ ks, k < closers.length)
    (hless : ks.length < closers.length) :
    notifyClosers closers (ks.map Event.completed ++ Event.timerFired :: rest)
      = some (NotifyOutcome.timedOut
          ((closers.enum.filter (fun e => !(ks.contains e.1))).map Prod.snd)) := by
  unfold notifyClosers
  have hsub : ∀ k ∈ ks, k ∈ (initPending closers).map Holder.key := by
    intro k hk
    rw [initPending_map_key]
    exact List.mem_range.mpr (hlt k hk)
  have hlen : ks.length < (initPending closers).length := by
    rw [initPending_length]
    exact hless
  have hcnt : closers.length = (initPending closers).length :=
    (initPending_length closers).symm
  rw [hcnt, notifyLoop_timer ks (initPending closers) rest
      (initPending_key_nodup closers) hks hsub hlen,
    initPending_filter_map_closer closers (fun x => !(ks.contains x))]

/-- C4: when the timeout timer fires while some closers are still pending
(the completions seen so far being a duplicate-free strict subset of the
registered indices), the protocol returns `TimedOut` whose `Uncompleted`
field holds exactly the closers whose index had not completed, and no
others. -/
theorem timedOut_carries_exactly_pending {κ : Type} (closers : List κ)
    (ks : List Nat) (rest : List Event) (hks : ks.Nodup)
    (hlt : ∀ k ∈ ks, k < closers.length)
    (hless : ks.length < closers.length) :
    notifyClosers closers (ks.map Event.completed ++ Event.timerFired :: rest)
      = some (NotifyOutcome.timedOut
          ((closers.enum.filter (fun e => !(ks.contains e.1))).map Prod.snd)) :=
  notifyClosers_timer_eq closers ks rest hks hlt hless

theorem timedOut_carries_witness :
    notifyClosers ([10, 20, 30] : List Nat)
        [Event.completed 1, Event.timerFired]
      = some (NotifyOutcome.timedOut [10, 30]) :=
  timedOut_carries_exactly_pending [10, 20, 30] [1] [] (by decide) (by decide)
    (by decide)

/-- C5: a completion event removes exactly the holder with that key from
the pending map (its size drops by one and precisely the holders with a
different key remain), and once the completions cover every registered
index the protocol returns the nil outcome at that moment, with no timer
event required. -/
theorem completion_removes_then_success {κ : Type} :
    (∀ (pending : List (Holder κ)) (k : Nat),
      (pending.map Holder.key).Nodup → k ∈ pending.map Holder.key →
      (pending.filter (fun h => h.key != k)).length + 1 = pending.length ∧
      ∀ h ∈ pending, (h ∈ pending.filter (fun h2 => h2.key != k) ↔ h.key ≠ k)) ∧
    (∀ (closers : List κ) (ks : List Nat) (rest : List Event),
      closers ≠ [] → List.Perm ks (List.range closers.length) →
      notifyClosers closers (ks.map Event.completed ++ rest)
        = some NotifyOutcome.success) := by
  constructor
  · intro pending k hnd hk
    constructor
    · have h1 := length_filter_key_ne hnd hk
      have h2 : 0 < pending.length := by
        rcases pending with _ | ⟨a, rest⟩
        · cases hk
        · simp
      omega
    · intro h hmem
      constructor
      · intro hf
        simpa using (List.mem_filter.mp hf).2
      · intro hne
        exact List.mem_filter.mpr ⟨hmem, by simpa using hne⟩
  · intro closers ks rest hne hperm
    unfold notifyClosers
    have hcnt : closers.length = (initPending closers).length :=
      (initPending_length closers).symm
    have hperm2 : List.Perm ks ((initPending closers).map Holder.key) := by
      rw [initPending_map_key]
      exact hperm
    have hne2 : initPending closers ≠ [] := by
      intro h
      apply hne
      have h2 := congrArg List.length h
      rw [initPending_length] at h2
      exact List.length_eq_zero.mp h2
    rw [hcnt]
    exact notifyLoop_success ks (initPending closers) rest
      (initPending_key_nodup closers) hperm2 hne2

theorem completion_removes_witness :
    ((([⟨0, 5⟩, ⟨1, 6⟩] : List (Holder Nat)).filter
        (fun h2 => h2.key != 0)).length + 1 = 2) ∧
    notifyClosers ([5, 6] : List Nat) [Event.completed 1, Event.completed 0]
      = some NotifyOutcome.success :=
  ⟨(completion_removes_then_success.1 [⟨0, 5⟩, ⟨1, 6⟩] 0
      (by decide) (by decide)).1,
   completion_removes_then_success.2 [5, 6] [1, 0] [] (by decide) (by decide)⟩

/-- C6: when the watcher's closer list is empty at notification time the
outcome is nil immediately, no closer goroutine is spawned, and the event
trace — in particular the timeout timer — plays no part. -/
theorem notify_empty_closers_success {κ : Type} (w : Watcher κ)
    (trace : List Event) (h : w.closers = []) :
    w.notify trace
      = ({ w with closers := [] }, [], some NotifyOutcome.success) := by
  simp [Watcher.notify, h]

theorem notify_empty_witness :
    Watcher.notify ⟨false, DefaultTimeout, ([] : List Nat)⟩ [Event.timerFired]
      = (⟨false, DefaultTimeout, []⟩, [], some NotifyOutcome.success) :=
  notify_empty_closers_success ⟨false, DefaultTimeout, []⟩ [Event.timerFired] rfl

/-- C7: a closer whose `Close` returns an error is still counted as
completed.  The goroutine body sends the same completion event whatever
`Close` returned (the error is discarded, never becoming the outcome),
and a closer whose completion event was consumed before the timer never
appears in a `TimedOut` uncompleted list. -/
theorem erroring_closer_counts_completed {κ : Type} :
    (∀ (h : Holder κ) (r1 r2 : Option String),
      closerTask h r1 = closerTask h r2 ∧
      closerTask h r1 = Event.completed h.key) ∧
    (∀ (closers : List κ) (ks : List Nat) (rest : List Event) (k : Nat)
      (u : List κ),
      closers.Nodup → ks.Nodup → (∀ j ∈ ks, j < closers.length) →
      ks.length < closers.length → k ∈ ks →
      notifyClosers closers (ks.map Event.completed ++ Event.timerFired :: rest)
        = some (NotifyOutcome.timedOut u) →
      ∀ hk : k < closers.length, closers.get ⟨k, hk⟩ ∉ u) := by
  constructor
  · exact fun h r1 r2 => ⟨rfl, rfl⟩
  · intro closers ks rest k u hnd hks hlt hless hkmem heq hk hmem
    rw [notifyClosers_timer_eq closers ks rest hks hlt hless] at heq
    injection heq with heq
    injection heq with heq
    rw [← heq] at hmem
    obtain ⟨e, hef, he2⟩ := List.mem_map.mp hmem
    obtain ⟨hee, hep⟩ := List.mem_filter.mp hef
    obtain ⟨he1, hegete⟩ :=
      List.getElem?_eq_some.mp (List.mem_enum_iff_getElem?.mp hee)
    have hkey : e.1 = k := by
      have hg : closers.get ⟨e.1, he1⟩ = closers.get ⟨k, hk⟩ := by
        rw [← he2]
        exact hegete
      have hfin := (List.Nodup.get_inj_iff hnd).mp hg
      exact congrArg Fin.val hfin
    have hc : ks.contains k = true := List.elem_eq_true_of_mem hkmem
    rw [hkey, hc] at hep
    cases hep

theorem erroring_closer_witness :
    closerTask ⟨0, (5 : Nat)⟩ (some "boom") = closerTask ⟨0, 5⟩ none ∧
    ([5, 6] : List Nat).get ⟨0, by decide⟩ ∉ ([6] : List Nat) :=
  ⟨(erroring_closer_counts_completed.1 ⟨0, 5⟩ (some "boom") none).1,
   erroring_closer_counts_completed.2 [5, 6] [0] [] 0 [6] (by decide) (by decide)
     (by decide) (by decide) (by decide) rfl (by decide)⟩

/-! ## Exactly-once closer invocation across repeated Close and Wait -/

lemma notify_spawn {κ : Type} (w : Watcher κ) (trace : List Event) :
    (w.notify trace).1.closers = [] ∧ (w.notify trace).2.1 = w.closers := by
  unfold Watcher.notify
  cases h : w.closers with
  | nil => simp [h]
  | cons a as => simp [h]

lemma applyCall_spawn {κ : Type} (w : Watcher κ) (c : Call) :
    (applyCall w c).1.closers = [] ∧ (applyCall w c).2.1 = w.closers := by
  cases c with
  | wait t => exact notify_spawn w t
  | close t => exact notify_spawn { w with doneSent := true } t

lemma runCalls_no_closers {κ : Type} (calls : List Call) :
    ∀ w : Watcher κ, w.closers = [] → (runCalls w calls).2 = [] := by
  induction calls with
  | nil => intro w _; rfl
  | cons c rest ih =>
      intro w h
      show (applyCall w c).2.1 ++ (runCalls (applyCall w c).1 rest).2 = []
      rw [(applyCall_spawn w c).2, h, ih _ (applyCall_spawn w c).1]
      rfl

/-- C1: across any sequence of public `Close` and `Wait` calls, the
closers whose `Close` goroutine is spawned are exactly the registered
list on the first call and nothing on any later call, so each registered
closer is invoked at most once per watcher instance no matter how often
either operation runs. -/
theorem closers_invoked_at_most_once {κ : Type} (w : Watcher κ)
    (calls : List Call) :
    (runCalls w calls).2 = if calls.isEmpty then [] else w.closers := by
  cases calls with
  | nil => rfl
  | cons c rest =>
      show (applyCall w c).2.1 ++ (runCalls (applyCall w c).1 rest).2 = _
      rw [(applyCall_spawn w c).2,
        runCalls_no_closers rest _ (applyCall_spawn w c).1, List.append_nil]
      rfl

/-- C3 is violated by the code: `notify` clears the closer list but never
caches an outcome, so a watcher whose first `Wait` resolved to
`TimedOut [7]` answers a second `Wait` with the nil outcome instead of an
identical `TimedOut` record.  Concrete run: one registered closer, timer
fires first both times. -/
theorem second_wait_after_timeout_returns_nil :
    ((NewWatcher (σ := Nat) [YOption.withClosers [(7 : Nat)]]).wait
        [Event.timerFired]).2.2 = some (NotifyOutcome.timedOut [7]) ∧
    (((NewWatcher (σ := Nat) [YOption.withClosers [(7 : Nat)]]).wait
        [Event.timerFired]).1.wait [Event.timerFired]).2.2
      = some NotifyOutcome.success :=
  ⟨rfl, rfl⟩

/-! ## Construction-time validation (spec-modelled variant) -/

lemma firstNullIdx_eq_none {κ : Type} :
    ∀ cs : List (Option κ), firstNullIdx cs = none → ∀ c ∈ cs, c ≠ none := by
  intro cs
  induction cs with
  | nil => intro _ c hc; cases hc
  | cons a rest ih =>
      intro h c hc
      cases a with
      | none => simp [firstNullIdx] at h
      | some v =>
          have hr : firstNullIdx rest = none := by
            have h2 : (firstNullIdx rest).map (· + 1) = none := h
            exact Option.map_eq_none'.mp h2
          rcases List.mem_cons.mp hc with hceq | hcm
          · rw [hceq]
            exact Option.some_ne_none v
          · exact ih hr c hcm

lemma firstNullIdx_eq_some {κ : Type} :
    ∀ (cs : List (Option κ)) (i : Nat), firstNullIdx cs = some i →
      ∃ hi : i < cs.length, cs.get ⟨i, hi⟩ = none := by
  intro cs
  induction cs with
  | nil => intro i h; exact Option.noConfusion h
  | cons a rest ih =>
      intro i h
      cases a with
      | none =>
          injection h with h1
          subst h1
          exact ⟨Nat.succ_pos _, rfl⟩
      | some v =>
          cases hr : firstNullIdx rest with
          | none =>
              have h2 : (firstNullIdx rest).map (· + 1) = some i := h
              rw [hr] at h2
              exact Option.noConfusion h2
          | some j =>
              have h2 : (firstNullIdx rest).map (· + 1) = some i := h
              rw [hr] at h2
              injection h2 with h2
              subst h2
              obtain ⟨hj, hget⟩ := ih j hr
              exact ⟨Nat.succ_lt_succ hj, hget⟩

/-- C2 (spec-modelled): with the validating constructor, an effective
closer list containing a null entry makes construction fail with the
validation error naming a null index (the first one), and no watcher is
produced; with no null entry, construction returns a watcher. -/
theorem null_closer_fails_construction (σ κ : Type)
    (opts : List (YOption σ (Option κ))) :
    ((∃ c ∈ (applyOptions opts).Closers, c = none) →
      ∃ i, ∃ hi : i < (applyOptions opts).Closers.length,
        (applyOptions opts).Closers.get ⟨i, hi⟩ = none ∧
        NewWatcherChecked opts
          = Except.error ("closer #" ++ toString i ++ " must not be null")) ∧
    ((∀ c ∈ (applyOptions opts).Closers, c ≠ none) →
      ∃ w : Watcher κ, NewWatcherChecked opts = Except.ok w) := by
  constructor
  · rintro ⟨c, hc, rfl⟩
    cases hf : firstNullIdx (applyOptions opts).Closers with
    | none => exact absurd rfl (firstNullIdx_eq_none _ hf none hc)
    | some i =>
        obtain ⟨hi, hget⟩ := firstNullIdx_eq_some _ i hf
        refine ⟨i, hi, hget, ?_⟩
        simp only [NewWatcherChecked]
        rw [hf]
  · intro hp
    cases hf : firstNullIdx (applyOptions opts).Closers with
    | none =>
        refine ⟨⟨false, (applyOptions opts).TimeOut,
          (applyOptions opts).Closers.filterMap id⟩, ?_⟩
        simp only [NewWatcherChecked]
        rw [hf]
    | some i =>
        obtain ⟨hi, hget⟩ := firstNullIdx_eq_some _ i hf
        exact absurd hget (hp _ (List.get_mem _ _ _))

theorem null_closer_witness :
    (∃ i, ∃ hi : i < (applyOptions (σ := Nat) (κ := Option Nat)
          [YOption.withClosers [some 4, none]]).Closers.length,
        (applyOptions (σ := Nat) (κ := Option Nat)
          [YOption.withClosers [some 4, none]]).Closers.get ⟨i, hi⟩ = none ∧
        NewWatcherChecked (σ := Nat) (κ := Nat)
            [YOption.withClosers [some 4, none]]
          = Except.error ("closer #" ++ toString i ++ " must not be null")) ∧
    (∃ w : Watcher Nat, NewWatcherChecked (σ := Nat)
          [YOption.withClosers [some 4]]
        = Except.ok w) :=
  ⟨(null_closer_fails_construction Nat Nat
      [YOption.withClosers [some 4, none]]).1 ⟨none, by decide, rfl⟩,
   (null_closer_fails_construction Nat Nat
      [YOption.withClosers [some 4]]).2 (by decide)⟩

end Yama
